import Mathlib

/-!
Verification of the API key rotation and failover controller
(`APIKeyRotator` in `src/server.js`) of the gemini-backend repository.

The JavaScript class is shallowly embedded: the mutable `this` object
becomes an explicit `APIKeyRotator` value threaded through each method,
`Date.now()` becomes an explicit `now : Nat` argument (milliseconds),
and the bounded `while` loop of `getNextAvailableKey` becomes structural
recursion on the remaining attempt budget (`attempts < apiKeys.length`
in the source, so the budget starts at the pool size).
-/

/-- One entry of the rotator health array, mirroring the object literal
built in the `APIKeyRotator` constructor in `src/server.js`. -/
structure KeyInfo where
  key : String
  index : Nat
  isHealthy : Bool
  usageCount : Nat
  lastUsed : Option Nat
  errorCount : Nat
  cooldownUntil : Option Nat
  successCount : Nat
deriving DecidableEq

/-- State of the rotator object: the configured keys, the rotation cursor
`currentIndex`, and the per-key health records `keyHealth`. -/
structure APIKeyRotator where
  apiKeys : List String
  currentIndex : Nat
  keyHealth : List KeyInfo
deriving DecidableEq

/-- The `APIKeyRotator` constructor: cursor 0 and one fresh health record
per key (healthy, zero counters, no cooldown). -/
def mkRotator (apiKeys : List String) : APIKeyRotator :=
  { apiKeys := apiKeys
    currentIndex := 0
    keyHealth := apiKeys.enum.map fun p =>
      { key := p.2, index := p.1, isHealthy := true, usageCount := 0,
        lastUsed := none, errorCount := 0, cooldownUntil := none,
        successCount := 0 } }

/-- JS truthiness test used by the source in the guards
`!keyInfo.cooldownUntil || keyInfo.cooldownUntil < now`: a `null`
cooldown and a `0` cooldown are both falsy, otherwise the stored
timestamp must be strictly in the past. -/
def cooldownClear : Option Nat → Nat → Bool
  | none, _ => true
  | some t, now => t == 0 || t < now

/-- The three-part eligibility guard of `getNextAvailableKey`:
`keyInfo.isHealthy && keyInfo.usageCount < 95 && (!keyInfo.cooldownUntil || keyInfo.cooldownUntil < now)`. -/
def isAvailable (k : KeyInfo) (now : Nat) : Bool :=
  k.isHealthy && decide (k.usageCount < 95) && cooldownClear k.cooldownUntil now

/-- Result value of a successful `getNextAvailableKey` call
(`{ key, index }` in the source). -/
structure SelectedKey where
  key : String
  index : Nat
deriving DecidableEq

/-- The scan loop of `getNextAvailableKey`. `fuel` is the remaining
attempt budget (the loop runs `while attempts < this.apiKeys.length`),
`startIdx` is the saved `startIndex`; the loop also breaks early when
the cursor wraps back to `startIndex` after at least one attempt. -/
def getNextAvailableKeyAux (now startIdx : Nat) :
    Nat → APIKeyRotator → APIKeyRotator × Option SelectedKey
  | 0, r => (r, none)
  | fuel + 1, r =>
    match r.keyHealth.get? r.currentIndex with
    | none => (r, none)
    | some keyInfo =>
      if isAvailable keyInfo now then
        let selected : SelectedKey := { key := keyInfo.key, index := r.currentIndex }
        let k2 : KeyInfo :=
          { keyInfo with usageCount := keyInfo.usageCount + 1, lastUsed := some now }
        ({ apiKeys := r.apiKeys
           currentIndex := (r.currentIndex + 1) % r.apiKeys.length
           keyHealth := r.keyHealth.set r.currentIndex k2 },
         some selected)
      else
        let r2 : APIKeyRotator :=
          { r with currentIndex := (r.currentIndex + 1) % r.apiKeys.length }
        if r2.currentIndex == startIdx then (r2, none)
        else getNextAvailableKeyAux now startIdx fuel r2

/-- Method `getNextAvailableKey`: scan at most `apiKeys.length` slots
starting at the cursor; on success increment the chosen slot usage,
stamp `lastUsed`, advance the cursor and return the key with its index;
otherwise return `null` (here `none`). -/
def getNextAvailableKey (r : APIKeyRotator) (now : Nat) :
    APIKeyRotator × Option SelectedKey :=
  getNextAvailableKeyAux now r.currentIndex r.apiKeys.length r

/-- Method `markKeySuccess`: increment `successCount` of the slot when
the given index is in range, otherwise do nothing. -/
def markKeySuccess (r : APIKeyRotator) (keyIndex : Int) : APIKeyRotator :=
  if 0 ≤ keyIndex ∧ keyIndex < (r.keyHealth.length : Int) then
    match r.keyHealth.get? keyIndex.toNat with
    | none => r
    | some k =>
      let k2 : KeyInfo := { k with successCount := k.successCount + 1 }
      { r with keyHealth := r.keyHealth.set keyIndex.toNat k2 }
  else r

/-- Method `markKeyExhausted`: when the index is in range, set
`isHealthy = false`, `cooldownUntil = Date.now() + cooldownMinutes*60*1000`
and increment `errorCount`; out of range indices are ignored. -/
def markKeyExhausted (r : APIKeyRotator) (keyIndex : Int)
    (cooldownMinutes now : Nat) : APIKeyRotator :=
  if 0 ≤ keyIndex ∧ keyIndex < (r.keyHealth.length : Int) then
    match r.keyHealth.get? keyIndex.toNat with
    | none => r
    | some k =>
      let k2 : KeyInfo :=
        { k with isHealthy := false,
                 cooldownUntil := some (now + cooldownMinutes * 60 * 1000),
                 errorCount := k.errorCount + 1 }
      { r with keyHealth := r.keyHealth.set keyIndex.toNat k2 }
  else r

/-- Method `resetAllKeys`: for every slot set `isHealthy = true`,
`usageCount = 0`, `cooldownUntil = null`, `errorCount = 0`; the cursor,
`successCount`, `lastUsed`, `key` and `index` are untouched. -/
def resetAllKeys (r : APIKeyRotator) : APIKeyRotator :=
  { r with keyHealth := r.keyHealth.map fun k =>
      { k with isHealthy := true, usageCount := 0, cooldownUntil := none,
               errorCount := 0 } }

/-- Return record of `getStatus`. `capacityPercentage` is `Option Int`:
`none` models the non-finite JS number (`NaN` from `0/0` on an empty
pool) and `some p` the value of `Math.round((remaining/total)*100)`. -/
structure Status where
  totalKeys : Nat
  healthyKeys : Nat
  totalUsage : Nat
  totalSuccess : Nat
  remainingCapacity : Int
  capacityPercentage : Option Int
deriving DecidableEq

/-- Model of `Math.round((remainingCapacity / totalCapacity) * 100)`:
for a zero denominator JS computes `0/0 = NaN` (mapped to `none`),
otherwise round half towards plus infinity, i.e. floor of `x + 1/2`. -/
def jsRound100 (remaining totalCapacity : Int) : Option Int :=
  if totalCapacity = 0 then none
  else some (Int.fdiv (remaining * 100 * 2 + totalCapacity) (totalCapacity * 2))

/-- Method `getStatus`: note the `healthyKeys` filter of the source tests
only `k.isHealthy && (!k.cooldownUntil || k.cooldownUntil < now)` -- it
does not test the usage ceiling. -/
def getStatus (r : APIKeyRotator) (now : Nat) : Status :=
  let healthyKeys :=
    (r.keyHealth.filter fun k => k.isHealthy && cooldownClear k.cooldownUntil now).length
  let totalUsage := (r.keyHealth.map KeyInfo.usageCount).sum
  let totalSuccess := (r.keyHealth.map KeyInfo.successCount).sum
  let totalCapacity : Int := (r.apiKeys.length : Int) * 95
  let remainingCapacity : Int := totalCapacity - (totalUsage : Int)
  { totalKeys := r.apiKeys.length
    healthyKeys := healthyKeys
    totalUsage := totalUsage
    totalSuccess := totalSuccess
    remainingCapacity := remainingCapacity
    capacityPercentage := jsRound100 remainingCapacity totalCapacity }

/-- Iterate `getNextAvailableKey` (keeping the state) `n` times at a
fixed clock value. -/
def acquireRep (now : Nat) : Nat → APIKeyRotator → APIKeyRotator
  | 0, r => r
  | n + 1, r => (getNextAvailableKey (acquireRep now n r) now).1

/-- One controller operation, for reasoning about arbitrary call
sequences against the rotator. -/
inductive Op where
  | acquire (now : Nat)
  | reportSuccess (keyIndex : Int)
  | reportExhausted (keyIndex : Int) (cooldownMinutes now : Nat)
  | resetAll
  | status (now : Nat)
deriving DecidableEq

/-- Apply one operation to the rotator state (`getStatus` reads but does
not mutate). -/
def applyOp (r : APIKeyRotator) : Op → APIKeyRotator
  | .acquire now => (getNextAvailableKey r now).1
  | .reportSuccess i => markKeySuccess r i
  | .reportExhausted i d now => markKeyExhausted r i d now
  | .resetAll => resetAllKeys r
  | .status _ => r

/-- Run a sequence of operations from a starting state. -/
def runOps (r : APIKeyRotator) : List Op → APIKeyRotator
  | [] => r
  | op :: ops => runOps (applyOp r op) ops

/-- Number of slots passing the full three-part eligibility test of
`getNextAvailableKey` at the given time. -/
def countEligible (r : APIKeyRotator) (now : Nat) : Nat :=
  (r.keyHealth.filter fun k => isAvailable k now).length

/-- Bool version of slot eligibility at a given ordinal. -/
def slotEligible (r : APIKeyRotator) (i now : Nat) : Bool :=
  match r.keyHealth.get? i with
  | none => false
  | some k => isAvailable k now

/-- Forward cyclic distance from `c` to `x` in a pool of `n` slots,
assuming both below `n` (proof-side device, closed form without `%`). -/
def distTo (n c x : Nat) : Nat :=
  if c ≤ x then x - c else x + n - c

/-- Proof-side invariant: every slot of the list respects the usage
ceiling of the acquire guard. -/
def usageBounded (l : List KeyInfo) : Prop :=
  ∀ i k, l.get? i = some k → k.usageCount ≤ 95

/-- Proof-side device for the capacity argument: slot `p` of a fresh
pool after `q` full rotation rounds plus `j` extra acquisitions at a
fixed clock `now` (slots below `j` have been used `q + 1` times). -/
def stageSlot (now q j : Nat) (p : Nat × String) : KeyInfo :=
  { key := p.2, index := p.1, isHealthy := true,
    usageCount := if p.1 < j then q + 1 else q,
    lastUsed := if 0 < q ∨ p.1 < j then some now else none,
    errorCount := 0, cooldownUntil := none, successCount := 0 }

/-- Proof-side device: the whole rotator state after `q` rounds plus
`j` extra acquisitions from a fresh pool (cursor at `j`). -/
def stageState (keys : List String) (now q j : Nat) : APIKeyRotator :=
  { apiKeys := keys, currentIndex := j, keyHealth := keys.enum.map (stageSlot now q j) }

/-- The claim C1 is refuted by the code: `markKeyExhausted` clears
`isHealthy`, and the eligibility test of `getNextAvailableKey`
conjunctively requires `isHealthy`, which only `resetAllKeys` ever sets
back to `true`. Concretely: one key, exhausted at time 0 with a 60
minute cooldown, so `cooldownUntil = 3600000`; at time 3600001 the
cooldown has passed and `usageCount = 0 < 95`, yet `acquire` still
returns `none` -- indeed it returns `none` at every time `t`. -/
theorem C1_cooldown_never_restores :
    (markKeyExhausted (mkRotator ["k1"]) 0 60 0).keyHealth.get? 0 =
      some { key := "k1", index := 0, isHealthy := false, usageCount := 0,
             lastUsed := none, errorCount := 1, cooldownUntil := some 3600000,
             successCount := 0 } ∧
    3600000 < 3600001 ∧
    (getNextAvailableKey (markKeyExhausted (mkRotator ["k1"]) 0 60 0) 3600001).2 = none ∧
    (∀ t : Nat, (getNextAvailableKey (markKeyExhausted (mkRotator ["k1"]) 0 60 0) t).2 = none) := by
  refine ⟨by decide, by decide, by decide, fun t => rfl⟩

/-- Claim C6, counterexample part: on the empty pool the source computes
`Math.round((0/0)*100)`, i.e. the undefined numeric value `NaN`
(modelled by `none`); the returned record carries no explicit
"no keys configured" marker, contrary to the claim. -/
theorem C6_counterexample :
    (getStatus (mkRotator []) 0).capacityPercentage = none ∧
    (getStatus (mkRotator []) 0).totalKeys = 0 := by
  exact ⟨rfl, rfl⟩

/-- Claim C6, amended: `getStatus` on the empty pool is total (the
embedding computes a value, the source throws nothing), reports zero
keys, zero usage and capacity, but its `capacityPercentage` is the
undefined numeric value `NaN` (`none`), not an explicit
"no keys configured" condition. -/
theorem C6_empty_pool (now : Nat) :
    getStatus (mkRotator []) now =
      { totalKeys := 0, healthyKeys := 0, totalUsage := 0, totalSuccess := 0,
        remainingCapacity := 0, capacityPercentage := none } := by
  rfl

/-- Claim C7: an out-of-range index (negative or at least the pool
size) makes both `markKeySuccess` and `markKeyExhausted` silent no-ops:
the whole rotator state, every slot field and the cursor included, is
returned unchanged. -/
theorem C7_out_of_range_noop (r : APIKeyRotator) (keyIndex : Int)
    (d now : Nat)
    (h : keyIndex < 0 ∨ (r.keyHealth.length : Int) ≤ keyIndex) :
    markKeySuccess r keyIndex = r ∧ markKeyExhausted r keyIndex d now = r := by
  have hcond : ¬ (0 ≤ keyIndex ∧ keyIndex < (r.keyHealth.length : Int)) := by
    rcases h with h | h
    · exact fun hc => absurd hc.1 (not_le.mpr h)
    · exact fun hc => absurd hc.2 (not_lt.mpr h)
  constructor
  · simp only [markKeySuccess, if_neg hcond]
  · simp only [markKeyExhausted, if_neg hcond]

/-- Witness for C7 at a concrete state and index. -/
theorem C7_witness :
    markKeySuccess (mkRotator ["a", "b"]) 2 = mkRotator ["a", "b"] ∧
    markKeyExhausted (mkRotator ["a", "b"]) 2 60 0 = mkRotator ["a", "b"] :=
  C7_out_of_range_noop (mkRotator ["a", "b"]) 2 60 0 (by decide)

theorem lt_length_of_get?_some {α : Type} {l : List α} {i : Nat} {a : α}
    (h : l.get? i = some a) : i < l.length := by
  by_contra hlt
  rw [List.get?_eq_none.mpr (Nat.le_of_not_lt hlt)] at h
  exact Option.noConfusion h

theorem markKeyExhausted_in_range (r : APIKeyRotator) (k : Nat) (d t : Nat)
    (s : KeyInfo) (hs : r.keyHealth.get? k = some s) :
    markKeyExhausted r (k : Int) d t =
      { r with keyHealth := (r.keyHealth.set k { s with isHealthy := false, cooldownUntil := some (t + d * 60 * 1000), errorCount := s.errorCount + 1 }) } := by
  have hk : k < r.keyHealth.length := lt_length_of_get?_some hs
  have hg : (0 : Int) ≤ (k : Int) ∧ (k : Int) < (r.keyHealth.length : Int) :=
    ⟨Int.natCast_nonneg k, by exact_mod_cast hk⟩
  simp only [markKeyExhausted, if_pos hg, Int.toNat_natCast, hs]

/-- Claim C8, counterexample to the idempotence part as stated: two
`markKeyExhausted` calls (times 0 and 5) do not leave the slot in the
same state as a single call at time 5, because `errorCount` is
incremented by every call (2 versus 1). -/
theorem C8_counterexample :
    markKeyExhausted (markKeyExhausted (mkRotator ["a"]) 0 60 0) 0 60 5 ≠
      markKeyExhausted (mkRotator ["a"]) 0 60 5 := by
  decide

/-- Claim C8, amended: for an in-range ordinal, `markKeyExhausted` sets
`isHealthy = false`, `cooldownUntil = now + minutes*60*1000` and
increments `errorCount`; a second call re-arms `cooldownUntil` and the
health flag exactly as a single call at the later time would, but
`errorCount` is incremented once per call, so the double call ends with
`errorCount + 2` where the single later call ends with `errorCount + 1`. -/
theorem C8_reportExhausted (r : APIKeyRotator) (k : Nat) (d₁ d₂ t₁ t₂ : Nat)
    (s : KeyInfo) (hs : r.keyHealth.get? k = some s) :
    (markKeyExhausted r k d₁ t₁).keyHealth.get? k =
      some { s with isHealthy := false,
                    cooldownUntil := some (t₁ + d₁ * 60 * 1000),
                    errorCount := s.errorCount + 1 } ∧
    (markKeyExhausted (markKeyExhausted r k d₁ t₁) k d₂ t₂).keyHealth.get? k =
      some { s with isHealthy := false,
                    cooldownUntil := some (t₂ + d₂ * 60 * 1000),
                    errorCount := s.errorCount + 2 } ∧
    (markKeyExhausted r k d₂ t₂).keyHealth.get? k =
      some { s with isHealthy := false,
                    cooldownUntil := some (t₂ + d₂ * 60 * 1000),
                    errorCount := s.errorCount + 1 } := by
  have hk : k < r.keyHealth.length := lt_length_of_get?_some hs
  have h1 := markKeyExhausted_in_range r k d₁ t₁ s hs
  have h1get : (markKeyExhausted r (k : Int) d₁ t₁).keyHealth.get? k =
      some { s with isHealthy := false,
                    cooldownUntil := some (t₁ + d₁ * 60 * 1000),
                    errorCount := s.errorCount + 1 } := by
    rw [h1]
    exact List.get?_set_eq_of_lt _ hk
  refine ⟨h1get, ?_, ?_⟩
  · have h2 := markKeyExhausted_in_range (markKeyExhausted r (k : Int) d₁ t₁) k d₂ t₂ _ h1get
    rw [h2]
    have hk2 : k < (markKeyExhausted r (k : Int) d₁ t₁).keyHealth.length :=
      lt_length_of_get?_some h1get
    exact List.get?_set_eq_of_lt _ hk2
  · have h3 := markKeyExhausted_in_range r k d₂ t₂ s hs
    rw [h3]
    exact List.get?_set_eq_of_lt _ hk

/-- Witness for C8 at a one-key pool, cooldowns 60 and 30 minutes,
times 0 and 5. -/
theorem C8_witness :
    (markKeyExhausted (mkRotator ["a"]) 0 60 0).keyHealth.get? 0 =
      some { key := "a", index := 0, isHealthy := false, usageCount := 0,
             lastUsed := none, errorCount := 1, cooldownUntil := some 3600000,
             successCount := 0 } ∧
    (markKeyExhausted (markKeyExhausted (mkRotator ["a"]) 0 60 0) 0 30 5).keyHealth.get? 0 =
      some { key := "a", index := 0, isHealthy := false, usageCount := 0,
             lastUsed := none, errorCount := 2, cooldownUntil := some 1800005,
             successCount := 0 } ∧
    (markKeyExhausted (mkRotator ["a"]) 0 30 5).keyHealth.get? 0 =
      some { key := "a", index := 0, isHealthy := false, usageCount := 0,
             lastUsed := none, errorCount := 1, cooldownUntil := some 1800005,
             successCount := 0 } :=
  C8_reportExhausted (mkRotator ["a"]) 0 60 30 0 5
    { key := "a", index := 0, isHealthy := true, usageCount := 0,
      lastUsed := none, errorCount := 0, cooldownUntil := none,
      successCount := 0 } (by decide)

set_option maxRecDepth 4000 in
/-- Claim C5, counterexample: on a one-key pool after 95 acquisitions
the single slot is saturated (fails the usage-ceiling part of the
acquire test), yet `getStatus` still counts it in `healthyKeys`,
because the source filter omits the `usageCount < 95` conjunct. -/
theorem C5_counterexample :
    (getStatus (acquireRep 0 95 (mkRotator ["a"])) 0).healthyKeys = 1 ∧
    countEligible (acquireRep 0 95 (mkRotator ["a"])) 0 = 0 ∧
    (getNextAvailableKey (acquireRep 0 95 (mkRotator ["a"])) 0).2 = none := by
  refine ⟨by decide, by decide, by decide⟩

/-- Claim C10: `getNextAvailableKey` is total by construction (the scan
is structural recursion on the attempt budget `apiKeys.length`, the
bound of the source loop `while attempts < this.apiKeys.length`), and
on an empty pool the budget is zero, so the loop body is never entered
and the call returns `null` with the state untouched. -/
theorem C10_acquire_total_empty (r : APIKeyRotator) (now : Nat)
    (h : r.apiKeys = []) :
    getNextAvailableKey r now = (r, none) := by
  unfold getNextAvailableKey
  rw [h]
  rfl

/-- Witness for C10 on the freshly constructed empty pool. -/
theorem C10_witness : getNextAvailableKey (mkRotator []) 5 = (mkRotator [], none) :=
  C10_acquire_total_empty (mkRotator []) 5 rfl

/-- Claim C4: `resetAllKeys` rewrites every slot to healthy, zero usage,
no cooldown and zero errors, while preserving `key`, `index`,
`successCount` and `lastUsed`, and leaves the key list and the cursor
alone; the reset slot passes the full acquire eligibility test at any
time, and `getStatus` then reports `remainingCapacity = N * 95`. -/
theorem C4_resetAll (r : APIKeyRotator) (now i : Nat) (k : KeyInfo)
    (h : r.keyHealth.get? i = some k) :
    (resetAllKeys r).keyHealth.get? i = some ({ k with isHealthy := true, usageCount := 0, cooldownUntil := none, errorCount := 0 }) ∧
    (resetAllKeys r).apiKeys = r.apiKeys ∧
    (resetAllKeys r).currentIndex = r.currentIndex ∧
    isAvailable ({ k with isHealthy := true, usageCount := 0, cooldownUntil := none, errorCount := 0 }) now = true ∧
    (getStatus (resetAllKeys r) now).remainingCapacity = (r.apiKeys.length : Int) * 95 := by
  refine ⟨?_, rfl, rfl, rfl, ?_⟩
  · show ((r.keyHealth.map _).get? i) = _
    rw [List.get?_map, h]
    rfl
  · have hzero : ((resetAllKeys r).keyHealth.map KeyInfo.usageCount).sum = 0 := by
      refine List.sum_eq_zero ?_
      intro x hx
      rcases List.mem_map.mp hx with ⟨y, hy, hxy⟩
      rcases List.mem_map.mp hy with ⟨z, _, hzy⟩
      rw [← hxy, ← hzy]
    simp only [getStatus]
    rw [hzero]
    simp [resetAllKeys]

/-- Witness for C4 on a one-key pool that was acquired once and then
exhausted before the reset. -/
theorem C4_witness :
    (resetAllKeys (markKeyExhausted (acquireRep 0 1 (mkRotator ["a"])) 0 60 0)).keyHealth.get? 0 = some ({ key := "a", index := 0, isHealthy := true, usageCount := 0, lastUsed := some 0, errorCount := 0, cooldownUntil := none, successCount := 0 }) ∧
    (resetAllKeys (markKeyExhausted (acquireRep 0 1 (mkRotator ["a"])) 0 60 0)).apiKeys = (markKeyExhausted (acquireRep 0 1 (mkRotator ["a"])) 0 60 0).apiKeys ∧
    (resetAllKeys (markKeyExhausted (acquireRep 0 1 (mkRotator ["a"])) 0 60 0)).currentIndex = (markKeyExhausted (acquireRep 0 1 (mkRotator ["a"])) 0 60 0).currentIndex ∧
    isAvailable ({ key := "a", index := 0, isHealthy := true, usageCount := 0, lastUsed := some 0, errorCount := 0, cooldownUntil := none, successCount := 0 }) 7 = true ∧
    (getStatus (resetAllKeys (markKeyExhausted (acquireRep 0 1 (mkRotator ["a"])) 0 60 0)) 7).remainingCapacity = (((markKeyExhausted (acquireRep 0 1 (mkRotator ["a"])) 0 60 0).apiKeys.length : Int)) * 95 :=
  C4_resetAll (markKeyExhausted (acquireRep 0 1 (mkRotator ["a"])) 0 60 0) 7 0
    { key := "a", index := 0, isHealthy := false, usageCount := 1,
      lastUsed := some 0, errorCount := 1, cooldownUntil := some 3600000,
      successCount := 0 } (by decide)

theorem length_filter_split {α : Type} (p b : α → Bool) (l : List α) :
    (l.filter p).length =
      (l.filter fun a => p a && b a).length +
        (l.filter fun a => p a && !(b a)).length := by
  induction l with
  | nil => rfl
  | cons x xs ih =>
    cases hp : p x <;> cases hb : b x <;>
      simp [List.filter_cons, hp, hb, ih] <;> omega

/-- Claim C5, amended: `healthyKeys` counts the slots passing only the
two-part test of the source filter (health flag plus cooldown), which
equals the count of fully acquire-eligible slots plus the count of
healthy cooldown-free slots that are at the usage ceiling; the third
part of the acquire test (`usageCount < 95`) is not applied. -/
theorem C5_healthyKeys (r : APIKeyRotator) (now : Nat) :
    (getStatus r now).healthyKeys =
      countEligible r now +
        (r.keyHealth.filter fun k => (k.isHealthy && cooldownClear k.cooldownUntil now) && !(decide (k.usageCount < 95))).length := by
  have hsplit := length_filter_split
    (fun k : KeyInfo => k.isHealthy && cooldownClear k.cooldownUntil now)
    (fun k : KeyInfo => decide (k.usageCount < 95)) r.keyHealth
  have hcongr : (r.keyHealth.filter fun k =>
        (k.isHealthy && cooldownClear k.cooldownUntil now) && decide (k.usageCount < 95)) =
      r.keyHealth.filter fun k => isAvailable k now := by
    refine List.filter_congr' ?_
    intro k _
    cases h1 : k.isHealthy <;>
      cases h2 : cooldownClear k.cooldownUntil now <;>
        cases h3 : decide (k.usageCount < 95) <;>
          simp [isAvailable, h1, h2, h3]
  show (r.keyHealth.filter fun k => k.isHealthy && cooldownClear k.cooldownUntil now).length = _
  rw [hsplit, hcongr]
  rfl

theorem usageBounded_set (l : List KeyInfo) (i : Nat) (a : KeyInfo)
    (hl : usageBounded l) (ha : a.usageCount ≤ 95) : usageBounded (l.set i a) := by
  intro j k hjk
  by_cases hji : j = i
  · subst hji
    by_cases hj : j < l.length
    · rw [List.get?_set_eq_of_lt a hj] at hjk
      exact (Option.some.inj hjk) ▸ ha
    · have hnone : (l.set j a).get? j = none := by
        refine List.get?_eq_none.mpr ?_
        rw [List.length_set]
        exact Nat.le_of_not_lt hj
      rw [hnone] at hjk
      exact Option.noConfusion hjk
  · rw [List.get?_set_ne a l (Ne.symm hji)] at hjk
    exact hl j k hjk

theorem usageBounded_aux (now s : Nat) :
    ∀ (fuel : Nat) (r : APIKeyRotator), usageBounded r.keyHealth →
      usageBounded (getNextAvailableKeyAux now s fuel r).1.keyHealth := by
  intro fuel
  induction fuel with
  | zero => intro r h; exact h
  | succ n ih =>
    intro r h
    simp only [getNextAvailableKeyAux]
    split
    · exact h
    · rename_i keyInfo hget
      split
      · rename_i hav
        have hlt : keyInfo.usageCount < 95 := by
          simp only [isAvailable, Bool.and_eq_true, decide_eq_true_eq] at hav
          exact hav.1.2
        exact usageBounded_set r.keyHealth r.currentIndex _ h hlt
      · split
        · exact h
        · exact ih _ h

theorem usageBounded_markKeySuccess (r : APIKeyRotator) (i : Int)
    (h : usageBounded r.keyHealth) : usageBounded (markKeySuccess r i).keyHealth := by
  unfold markKeySuccess
  split
  · split
    · exact h
    · rename_i k hget
      have hb : k.usageCount ≤ 95 := h _ _ hget
      exact usageBounded_set _ _ _ h hb
  · exact h

theorem usageBounded_markKeyExhausted (r : APIKeyRotator) (i : Int) (d now : Nat)
    (h : usageBounded r.keyHealth) : usageBounded (markKeyExhausted r i d now).keyHealth := by
  unfold markKeyExhausted
  split
  · split
    · exact h
    · rename_i k hget
      have hb : k.usageCount ≤ 95 := h _ _ hget
      exact usageBounded_set _ _ _ h hb
  · exact h

theorem usageBounded_resetAllKeys (r : APIKeyRotator) :
    usageBounded (resetAllKeys r).keyHealth := by
  intro i k hik
  simp only [resetAllKeys, List.get?_map] at hik
  cases h2 : r.keyHealth.get? i with
  | none => rw [h2] at hik; simp at hik
  | some y =>
    rw [h2] at hik
    simp only [Option.map_some'] at hik
    rw [← Option.some.inj hik]
    exact Nat.zero_le _

theorem usageBounded_mkRotator (keys : List String) :
    usageBounded (mkRotator keys).keyHealth := by
  intro i k hik
  simp only [mkRotator, List.get?_map] at hik
  cases h2 : keys.enum.get? i with
  | none => rw [h2] at hik; simp at hik
  | some p =>
    rw [h2] at hik
    simp only [Option.map_some'] at hik
    rw [← Option.some.inj hik]
    exact Nat.zero_le _

theorem usageBounded_applyOp (r : APIKeyRotator) (op : Op)
    (h : usageBounded r.keyHealth) : usageBounded (applyOp r op).keyHealth := by
  cases op with
  | acquire now => exact usageBounded_aux now r.currentIndex r.apiKeys.length r h
  | reportSuccess i => exact usageBounded_markKeySuccess r i h
  | reportExhausted i d now => exact usageBounded_markKeyExhausted r i d now h
  | resetAll => exact usageBounded_resetAllKeys r
  | status now => exact h

theorem usageBounded_runOps : ∀ (ops : List Op) (r : APIKeyRotator),
    usageBounded r.keyHealth → usageBounded (runOps r ops).keyHealth := by
  intro ops
  induction ops with
  | nil => intro r h; exact h
  | cons op ops ih => intro r h; exact ih _ (usageBounded_applyOp r op h)

/-- Claim C9: along any sequence of controller operations from a fresh
pool, every slot usage counter stays at or below the ceiling 95,
because the acquire scan only increments a slot whose counter is still
strictly below 95 and no other operation raises the counter. -/
theorem C9_usage_cap_invariant (keys : List String) (ops : List Op)
    (i : Nat) (k : KeyInfo)
    (h : (runOps (mkRotator keys) ops).keyHealth.get? i = some k) :
    k.usageCount ≤ 95 :=
  usageBounded_runOps ops (mkRotator keys) (usageBounded_mkRotator keys) i k h

/-- Witness for C9 after one acquisition and one success report on a
one-key pool. -/
theorem C9_witness :
    ({ key := "a", index := 0, isHealthy := true, usageCount := 1,
       lastUsed := some 3, errorCount := 0, cooldownUntil := none,
       successCount := 1 } : KeyInfo).usageCount ≤ 95 :=
  C9_usage_cap_invariant ["a"] [Op.acquire 3, Op.reportSuccess 0] 0 _ (by decide)

theorem rotator_ext (a b : APIKeyRotator) (h1 : a.apiKeys = b.apiKeys)
    (h2 : a.currentIndex = b.currentIndex) (h3 : a.keyHealth = b.keyHealth) :
    a = b := by
  cases a
  cases b
  simp_all

theorem aux_step_success (now s fuel : Nat) (r : APIKeyRotator) (kc : KeyInfo)
    (hget : r.keyHealth.get? r.currentIndex = some kc)
    (hav : isAvailable kc now = true) :
    getNextAvailableKeyAux now s (fuel + 1) r =
      ({ apiKeys := r.apiKeys,
         currentIndex := (r.currentIndex + 1) % r.apiKeys.length,
         keyHealth := r.keyHealth.set r.currentIndex ({ kc with usageCount := kc.usageCount + 1, lastUsed := some now }) },
       some { key := kc.key, index := r.currentIndex }) := by
  simp only [getNextAvailableKeyAux, hget]
  rw [if_pos hav]

theorem aux_none_of_unavailable (now s : Nat) :
    ∀ (fuel : Nat) (r : APIKeyRotator),
      (∀ i k, r.keyHealth.get? i = some k → isAvailable k now = false) →
      (getNextAvailableKeyAux now s fuel r).2 = none := by
  intro fuel
  induction fuel with
  | zero => intro r _; rfl
  | succ n ih =>
    intro r h
    simp only [getNextAvailableKeyAux]
    split
    · rfl
    · rename_i kc hget
      split
      · rename_i hav
        rw [h _ _ hget] at hav
        exact Bool.noConfusion hav
      · split
        · rfl
        · exact ih _ h

theorem stageState_get? (keys : List String) (now q j i : Nat) :
    (stageState keys now q j).keyHealth.get? i =
      (keys.get? i).map fun key => stageSlot now q j (i, key) := by
  show ((keys.enum.map (stageSlot now q j)).get? i) = _
  rw [List.get?_map, List.enum_get?]
  cases keys.get? i <;> rfl

theorem mkRotator_eq_stage0 (keys : List String) (now : Nat) :
    mkRotator keys = stageState keys now 0 0 := by
  refine rotator_ext _ _ rfl rfl ?_
  apply List.ext_get?
  intro i
  show (keys.enum.map _).get? i = (keys.enum.map _).get? i
  rw [List.get?_map, List.get?_map]
  cases h : keys.enum.get? i with
  | none => rfl
  | some p =>
    simp only [Option.map_some']
    simp [stageSlot]

theorem stage_keyHealth_set (keys : List String) (now q j : Nat) (key : String)
    (hkey : keys.get? j = some key) :
    (keys.enum.map (stageSlot now q j)).set j ({ stageSlot now q j (j, key) with usageCount := (stageSlot now q j (j, key)).usageCount + 1, lastUsed := some now }) =
      keys.enum.map (stageSlot now q (j + 1)) := by
  have hj : j < keys.length := lt_length_of_get?_some hkey
  apply List.ext_get?
  intro i
  by_cases hij : i = j
  · subst hij
    rw [List.get?_set_eq_of_lt _ (by rw [List.length_map, List.enum_length]; exact hj)]
    rw [List.get?_map, List.enum_get?, hkey]
    simp only [Option.map_some']
    simp [stageSlot, Nat.lt_irrefl, Nat.lt_succ_self]
  · rw [List.get?_set_ne _ _ (Ne.symm hij)]
    rw [List.get?_map, List.get?_map, List.enum_get?]
    cases hki : keys.get? i with
    | none => rfl
    | some key2 =>
      simp only [Option.map_some']
      by_cases hlt : i < j
      · have hlt2 : i < j + 1 := by omega
        simp [stageSlot, hlt, hlt2]
      · have hge : ¬ i < j + 1 := by omega
        simp [stageSlot, hlt, hge]

theorem stage_wrap (keys : List String) (now q j : Nat)
    (hwrap : j + 1 = keys.length) :
    keys.enum.map (stageSlot now q (j + 1)) =
      keys.enum.map (stageSlot now (q + 1) 0) := by
  apply List.ext_get?
  intro i
  rw [List.get?_map, List.get?_map, List.enum_get?]
  cases hki : keys.get? i with
  | none => rfl
  | some key =>
    have hi : i < keys.length := lt_length_of_get?_some hki
    have hlt : i < j + 1 := by omega
    simp only [Option.map_some']
    simp [stageSlot, hlt, Nat.not_lt_zero]

theorem stage_step (keys : List String) (now q j : Nat)
    (hj : j < keys.length) (hq : q < 95) :
    (getNextAvailableKey (stageState keys now q j) now).1 =
        (if j + 1 = keys.length then stageState keys now (q + 1) 0
         else stageState keys now q (j + 1)) ∧
    (getNextAvailableKey (stageState keys now q j) now).2.isSome = true := by
  obtain ⟨key, hkey⟩ : ∃ key, keys.get? j = some key := by
    cases hk : keys.get? j with
    | none => exact absurd (List.get?_eq_none.mp hk) (Nat.not_le.mpr hj)
    | some key => exact ⟨key, rfl⟩
  have hget : (stageState keys now q j).keyHealth.get? j = some (stageSlot now q j (j, key)) := by
    rw [stageState_get?, hkey]
    rfl
  have hav : isAvailable (stageSlot now q j (j, key)) now = true := by
    simp [isAvailable, stageSlot, Nat.lt_irrefl, hq, cooldownClear]
  obtain ⟨m, hm⟩ : ∃ m, keys.length = m + 1 := ⟨keys.length - 1, by omega⟩
  have hcall : getNextAvailableKey (stageState keys now q j) now =
      getNextAvailableKeyAux now j (m + 1) (stageState keys now q j) := by
    show getNextAvailableKeyAux now j keys.length (stageState keys now q j) = _
    rw [hm]
  have hstep := aux_step_success now j m (stageState keys now q j)
    (stageSlot now q j (j, key)) hget hav
  rw [hcall, hstep]
  refine ⟨?_, rfl⟩
  show ({ apiKeys := keys, currentIndex := (j + 1) % keys.length, keyHealth := (stageState keys now q j).keyHealth.set j ({ stageSlot now q j (j, key) with usageCount := (stageSlot now q j (j, key)).usageCount + 1, lastUsed := some now }) } : APIKeyRotator) = _
  have hkh : (stageState keys now q j).keyHealth.set j ({ stageSlot now q j (j, key) with usageCount := (stageSlot now q j (j, key)).usageCount + 1, lastUsed := some now }) =
      keys.enum.map (stageSlot now q (j + 1)) :=
    stage_keyHealth_set keys now q j key hkey
  by_cases hwrap : j + 1 = keys.length
  · rw [if_pos hwrap]
    refine rotator_ext _ _ rfl ?_ ?_
    · show (j + 1) % keys.length = 0
      rw [hwrap, Nat.mod_self]
    · show (stageState keys now q j).keyHealth.set j _ = (stageState keys now (q + 1) 0).keyHealth
      rw [hkh]
      exact stage_wrap keys now q j hwrap
  · rw [if_neg hwrap]
    refine rotator_ext _ _ rfl ?_ ?_
    · show (j + 1) % keys.length = j + 1
      exact Nat.mod_eq_of_lt (by omega)
    · show (stageState keys now q j).keyHealth.set j _ = (stageState keys now q (j + 1)).keyHealth
      rw [hkh]
      rfl

theorem acquireRep_stage (keys : List String) (now : Nat) (hne : keys ≠ []) :
    ∀ k, k ≤ 95 * keys.length →
      acquireRep now k (mkRotator keys) =
        stageState keys now (k / keys.length) (k % keys.length) := by
  have hN : 0 < keys.length := List.length_pos.mpr hne
  intro k
  induction k with
  | zero =>
    intro _
    rw [Nat.zero_div, Nat.zero_mod]
    exact mkRotator_eq_stage0 keys now
  | succ k ih =>
    intro hk1
    have hk : k < 95 * keys.length := by omega
    have hih := ih (by omega)
    show (getNextAvailableKey (acquireRep now k (mkRotator keys)) now).1 = _
    rw [hih]
    have hj : k % keys.length < keys.length := Nat.mod_lt _ hN
    have hq : k / keys.length < 95 := (Nat.div_lt_iff_lt_mul hN).mpr hk
    rw [(stage_step keys now (k / keys.length) (k % keys.length) hj hq).1]
    have hdm := Nat.div_add_mod k keys.length
    by_cases hwrap : k % keys.length + 1 = keys.length
    · rw [if_pos hwrap]
      have h2 : (k + 1) / keys.length = k / keys.length + 1 ∧ (k + 1) % keys.length = 0 := by
        rw [Nat.div_mod_unique hN]
        refine ⟨?_, hN⟩
        rw [Nat.mul_succ]
        omega
      rw [h2.1, h2.2]
    · rw [if_neg hwrap]
      have h2 : (k + 1) / keys.length = k / keys.length ∧ (k + 1) % keys.length = k % keys.length + 1 := by
        rw [Nat.div_mod_unique hN]
        exact ⟨by omega, by omega⟩
      rw [h2.1, h2.2]

/-- Claim C2: from a fresh pool of `N` keys, with no exhaustion reports,
each of the first `N * 95` acquire calls returns a key, and the call
number `N * 95 + 1` returns `null`: the fresh slots stay healthy and
cooldown-free, so exactly the usage ceiling `95` per slot bounds the
number of successful acquisitions. -/
theorem C2_capacity (keys : List String) (now : Nat) (hne : keys ≠ []) :
    (∀ k, k < 95 * keys.length →
        (getNextAvailableKey (acquireRep now k (mkRotator keys)) now).2 ≠ none) ∧
    (getNextAvailableKey (acquireRep now (95 * keys.length) (mkRotator keys)) now).2 = none := by
  have hN : 0 < keys.length := List.length_pos.mpr hne
  constructor
  · intro k hk hcontra
    rw [acquireRep_stage keys now hne k (Nat.le_of_lt hk)] at hcontra
    have hisSome := (stage_step keys now (k / keys.length) (k % keys.length)
      (Nat.mod_lt _ hN) ((Nat.div_lt_iff_lt_mul hN).mpr hk)).2
    rw [hcontra] at hisSome
    exact Bool.noConfusion hisSome
  · rw [acquireRep_stage keys now hne _ (Nat.le_refl _)]
    rw [Nat.mul_div_cancel _ hN, Nat.mul_mod_left]
    apply aux_none_of_unavailable
    intro i k hik
    rw [stageState_get?] at hik
    cases hki : keys.get? i with
    | none => rw [hki] at hik; exact Option.noConfusion hik
    | some key =>
      rw [hki] at hik
      simp only [Option.map_some'] at hik
      rw [← Option.some.inj hik]
      simp [isAvailable, stageSlot]

/-- Witness for C2 on a one-key pool: the first 95 calls succeed and
call 96 returns none. -/
theorem C2_witness :
    (∀ k, k < 95 * ["a"].length →
        (getNextAvailableKey (acquireRep 0 k (mkRotator ["a"])) 0).2 ≠ none) ∧
    (getNextAvailableKey (acquireRep 0 (95 * ["a"].length) (mkRotator ["a"])) 0).2 = none :=
  C2_capacity ["a"] 0 (by decide)

theorem distTo_lt (n c x : Nat) (hc : c < n) (hx : x < n) : distTo n c x < n := by
  simp only [distTo]
  split <;> omega

theorem distTo_self (n c : Nat) : distTo n c c = 0 := by
  simp [distTo]

theorem distTo_inj (n c x y : Nat) (hc : c < n) (hx : x < n) (hy : y < n)
    (h : distTo n c x = distTo n c y) : x = y := by
  simp only [distTo] at h
  split at h <;> split at h <;> omega

theorem succ_mod_eq (c n : Nat) (hc : c < n) :
    (c + 1) % n = if c + 1 = n then 0 else c + 1 := by
  by_cases h : c + 1 = n
  · rw [if_pos h, h, Nat.mod_self]
  · rw [if_neg h]
    exact Nat.mod_eq_of_lt (by omega)

theorem distTo_advance (n c x : Nat) (hc : c < n) (hx : x < n) (hne : x ≠ c) :
    distTo n ((c + 1) % n) x = distTo n c x - 1 ∧ 1 ≤ distTo n c x := by
  rw [succ_mod_eq c n hc]
  simp only [distTo]
  split_ifs <;> omega

theorem distTo_s_advance (n s c : Nat) (hs : s < n) (hc : c < n)
    (hfar : distTo n s c + 2 ≤ n) :
    distTo n s ((c + 1) % n) = distTo n s c + 1 ∧ (c + 1) % n ≠ s := by
  rw [succ_mod_eq c n hc]
  simp only [distTo] at hfar ⊢
  split_ifs at hfar ⊢ <;> omega

theorem distTo_back (n a : Nat) (ha : a < n) :
    distTo n ((a + 1) % n) a = n - 1 := by
  rw [succ_mod_eq a n ha]
  simp only [distTo]
  split_ifs <;> omega

theorem aux_finds (now : Nat) :
    ∀ (fuel : Nat) (r : APIKeyRotator) (s b : Nat) (kb : KeyInfo),
      r.keyHealth.length = r.apiKeys.length →
      r.currentIndex < r.apiKeys.length →
      s < r.apiKeys.length →
      b < r.apiKeys.length →
      r.keyHealth.get? b = some kb →
      isAvailable kb now = true →
      distTo r.apiKeys.length r.currentIndex b < fuel →
      distTo r.apiKeys.length s r.currentIndex +
          distTo r.apiKeys.length r.currentIndex b + 1 ≤ r.apiKeys.length →
      ∃ sel ksel,
        (getNextAvailableKeyAux now s fuel r).2 = some sel ∧
        sel.index < r.apiKeys.length ∧
        r.keyHealth.get? sel.index = some ksel ∧
        isAvailable ksel now = true ∧
        distTo r.apiKeys.length r.currentIndex sel.index ≤
          distTo r.apiKeys.length r.currentIndex b ∧
        (getNextAvailableKeyAux now s fuel r).1.apiKeys = r.apiKeys ∧
        (getNextAvailableKeyAux now s fuel r).1.currentIndex =
          (sel.index + 1) % r.apiKeys.length ∧
        (getNextAvailableKeyAux now s fuel r).1.keyHealth =
          r.keyHealth.set sel.index ({ ksel with usageCount := ksel.usageCount + 1, lastUsed := some now }) := by
  intro fuel
  induction fuel with
  | zero =>
    intro r s b kb _ _ _ _ _ _ hfuel _
    exact absurd hfuel (Nat.not_lt_zero _)
  | succ n ih =>
    intro r s b kb hlen hc hs hb hkb hav hfuel hsum
    obtain ⟨kc, hkc⟩ : ∃ kc, r.keyHealth.get? r.currentIndex = some kc := by
      cases hg : r.keyHealth.get? r.currentIndex with
      | none =>
        have hge := List.get?_eq_none.mp hg
        exact absurd hc (by omega)
      | some kc => exact ⟨kc, rfl⟩
    by_cases havc : isAvailable kc now = true
    · have hstep := aux_step_success now s n r kc hkc havc
      refine ⟨{ key := kc.key, index := r.currentIndex }, kc, ?_, hc, hkc, havc, ?_, ?_, ?_, ?_⟩
      · rw [hstep]
      · rw [distTo_self]
        exact Nat.zero_le _
      · rw [hstep]
      · rw [hstep]
      · rw [hstep]
    · have hbc : b ≠ r.currentIndex := by
        intro he
        rw [he, hkc] at hkb
        exact havc ((Option.some.inj hkb) ▸ hav)
      have hadv := distTo_advance r.apiKeys.length r.currentIndex b hc hb hbc
      have hsadv := distTo_s_advance r.apiKeys.length s r.currentIndex hs hc (by omega)
      have hc2 : (r.currentIndex + 1) % r.apiKeys.length < r.apiKeys.length :=
        Nat.mod_lt _ (by omega)
      have hnb : ¬ (((r.currentIndex + 1) % r.apiKeys.length == s) = true) := by
        simp only [beq_iff_eq]
        exact hsadv.2
      have hunf : getNextAvailableKeyAux now s (n + 1) r =
          getNextAvailableKeyAux now s n
            { apiKeys := r.apiKeys, currentIndex := (r.currentIndex + 1) % r.apiKeys.length, keyHealth := r.keyHealth } := by
        simp only [getNextAvailableKeyAux, hkc]
        rw [if_neg havc, if_neg hnb]
      rw [hunf]
      have hfuel2 : distTo r.apiKeys.length ((r.currentIndex + 1) % r.apiKeys.length) b < n := by
        rw [hadv.1]
        omega
      have hsum2 : distTo r.apiKeys.length s ((r.currentIndex + 1) % r.apiKeys.length) +
          distTo r.apiKeys.length ((r.currentIndex + 1) % r.apiKeys.length) b + 1 ≤
            r.apiKeys.length := by
        rw [hsadv.1, hadv.1]
        omega
      obtain ⟨sel, ksel, h1, h2, h3, h4, h5, h6, h7, h8⟩ :=
        ih { apiKeys := r.apiKeys, currentIndex := (r.currentIndex + 1) % r.apiKeys.length, keyHealth := r.keyHealth }
          s b kb hlen hc2 hs hb hkb hav hfuel2 hsum2
      refine ⟨sel, ksel, h1, h2, h3, h4, ?_, h6, h7, h8⟩
      have h5' : distTo r.apiKeys.length ((r.currentIndex + 1) % r.apiKeys.length) sel.index ≤
          distTo r.apiKeys.length ((r.currentIndex + 1) % r.apiKeys.length) b := h5
      have h2' : sel.index < r.apiKeys.length := h2
      have hback : distTo r.apiKeys.length ((r.currentIndex + 1) % r.apiKeys.length) r.currentIndex =
          r.apiKeys.length - 1 := distTo_back r.apiKeys.length r.currentIndex hc
      have hblt := distTo_lt r.apiKeys.length r.currentIndex b hc hb
      have hselne : sel.index ≠ r.currentIndex := by
        intro he
        rw [he, hback, hadv.1] at h5'
        omega
      have hadv_sel := distTo_advance r.apiKeys.length r.currentIndex sel.index hc h2' hselne
      rw [hadv_sel.1, hadv.1] at h5'
      omega

/-- Claim C3: whenever two distinct slots are eligible, two consecutive
acquire calls both succeed and return distinct ordinals, because the
scan of the second call starts right after the first chosen ordinal and
reaches the other eligible slot strictly before wrapping back to it;
moreover, on a fresh 3-key pool the first three acquisitions return the
ordinals 0, 1, 2 in rotation order from the cursor. -/
theorem C3_round_robin :
    (∀ (r : APIKeyRotator) (now i j : Nat),
        r.keyHealth.length = r.apiKeys.length →
        r.currentIndex < r.apiKeys.length →
        i ≠ j →
        slotEligible r i now = true →
        slotEligible r j now = true →
        ∃ s1 s2,
          (getNextAvailableKey r now).2 = some s1 ∧
          (getNextAvailableKey (getNextAvailableKey r now).1 now).2 = some s2 ∧
          s1.index ≠ s2.index) ∧
    ((getNextAvailableKey (mkRotator ["a", "b", "c"]) 0).2.map SelectedKey.index = some 0 ∧
      (getNextAvailableKey (getNextAvailableKey (mkRotator ["a", "b", "c"]) 0).1 0).2.map SelectedKey.index = some 1 ∧
      (getNextAvailableKey (getNextAvailableKey (getNextAvailableKey (mkRotator ["a", "b", "c"]) 0).1 0).1 0).2.map SelectedKey.index = some 2) := by
  constructor
  · intro r now i j hlen hc hij hei hej
    obtain ⟨ki, hgi, havi⟩ : ∃ ki, r.keyHealth.get? i = some ki ∧ isAvailable ki now = true := by
      cases hg : r.keyHealth.get? i with
      | none =>
        simp only [slotEligible, hg] at hei
        exact Bool.noConfusion hei
      | some ki =>
        simp only [slotEligible, hg] at hei
        exact ⟨ki, rfl, hei⟩
    obtain ⟨kj, hgj, havj⟩ : ∃ kj, r.keyHealth.get? j = some kj ∧ isAvailable kj now = true := by
      cases hg : r.keyHealth.get? j with
      | none =>
        simp only [slotEligible, hg] at hej
        exact Bool.noConfusion hej
      | some kj =>
        simp only [slotEligible, hg] at hej
        exact ⟨kj, rfl, hej⟩
    have hi : i < r.apiKeys.length := by
      have := lt_length_of_get?_some hgi
      omega
    have hj : j < r.apiKeys.length := by
      have := lt_length_of_get?_some hgj
      omega
    have hN : 0 < r.apiKeys.length := by omega
    have hdib := distTo_lt r.apiKeys.length r.currentIndex i hc hi
    obtain ⟨s1, k1, e1, hs1lt, hg1, hav1, _, ha1, hc1, hk1⟩ :=
      aux_finds now r.apiKeys.length r r.currentIndex i ki hlen hc hc hi hgi havi hdib
        (by rw [distTo_self]; omega)
    obtain ⟨b0, kb0, hb0ne, hb0lt, hgb0, havb0⟩ :
        ∃ b0 kb0, b0 ≠ s1.index ∧ b0 < r.apiKeys.length ∧
          r.keyHealth.get? b0 = some kb0 ∧ isAvailable kb0 now = true := by
      by_cases hcase : s1.index = i
      · refine ⟨j, kj, ?_, hj, hgj, havj⟩
        rw [hcase]
        exact Ne.symm hij
      · exact ⟨i, ki, fun he => hcase he.symm, hi, hgi, havi⟩
    have hlen2 : (getNextAvailableKeyAux now r.currentIndex r.apiKeys.length r).1.keyHealth.length =
        (getNextAvailableKeyAux now r.currentIndex r.apiKeys.length r).1.apiKeys.length := by
      rw [hk1, ha1, List.length_set]
      exact hlen
    have hc2 : (getNextAvailableKeyAux now r.currentIndex r.apiKeys.length r).1.currentIndex <
        (getNextAvailableKeyAux now r.currentIndex r.apiKeys.length r).1.apiKeys.length := by
      rw [hc1, ha1]
      exact Nat.mod_lt _ hN
    have hb0lt2 : b0 < (getNextAvailableKeyAux now r.currentIndex r.apiKeys.length r).1.apiKeys.length := by
      rw [ha1]
      exact hb0lt
    have hgb02 : (getNextAvailableKeyAux now r.currentIndex r.apiKeys.length r).1.keyHealth.get? b0 = some kb0 := by
      rw [hk1, List.get?_set_ne _ _ (Ne.symm hb0ne)]
      exact hgb0
    obtain ⟨s2, k2, e2, _, _, _, hd2, _, _, _⟩ :=
      aux_finds now (getNextAvailableKeyAux now r.currentIndex r.apiKeys.length r).1.apiKeys.length
        (getNextAvailableKeyAux now r.currentIndex r.apiKeys.length r).1
        (getNextAvailableKeyAux now r.currentIndex r.apiKeys.length r).1.currentIndex
        b0 kb0 hlen2 hc2 hc2 hb0lt2 hgb02 havb0
        (distTo_lt _ _ _ hc2 hb0lt2)
        (by rw [distTo_self]; have := distTo_lt _ _ _ hc2 hb0lt2; omega)
    refine ⟨s1, s2, e1, e2, ?_⟩
    rw [ha1, hc1] at hd2
    have hback : distTo r.apiKeys.length ((s1.index + 1) % r.apiKeys.length) s1.index =
        r.apiKeys.length - 1 := distTo_back r.apiKeys.length s1.index hs1lt
    have hb0strict : distTo r.apiKeys.length ((s1.index + 1) % r.apiKeys.length) b0 ≠
        r.apiKeys.length - 1 := by
      intro he
      exact hb0ne (distTo_inj r.apiKeys.length ((s1.index + 1) % r.apiKeys.length) b0 s1.index
        (Nat.mod_lt _ hN) hb0lt hs1lt (he.trans hback.symm))
    have hblt2 := distTo_lt r.apiKeys.length ((s1.index + 1) % r.apiKeys.length) b0
      (Nat.mod_lt _ hN) hb0lt
    intro he
    rw [← he, hback] at hd2
    omega
  · refine ⟨by decide, by decide, by decide⟩

/-- Witness for C3 on a fresh two-key pool with both slots eligible. -/
theorem C3_witness :
    ∃ s1 s2,
      (getNextAvailableKey (mkRotator ["a", "b"]) 0).2 = some s1 ∧
      (getNextAvailableKey (getNextAvailableKey (mkRotator ["a", "b"]) 0).1 0).2 = some s2 ∧
      s1.index ≠ s2.index :=
  C3_round_robin.1 (mkRotator ["a", "b"]) 0 0 1 (by decide) (by decide)
    (by decide) (by decide) (by decide)
